import Mathlib

/-!
Verification development for the rego terminal-UI runtime.

This file gives a shallow embedding, in Lean, of the parts of the Go source
that the specification's claims are about:

* the layout/render engine (`Node`, `measureNodeHeight`, `Node.render`,
  the `clipScreen` proxy, the VStack flex distribution, box sizing, text
  wrapping, scroll auto-tail) from `part_000` / `box.go`;
* the focus registry (`FocusManager.Register` / `Reset`) from `focus.go`;
* the state cell write path (`State.Set`, `Runtime.scheduleRefresh`) from
  `part_015` / `runtime.go`;
* the effect slots (`UseEffect`, `depsEqual`) from `part_015`;
* the panic containment of the main loop (`Runtime.render`) from `runtime.go`;
* mouse event dispatch (`componentContext.dispatchMouseEvent`) from
  `context.go`.

Machine integers of the Go source are modelled as `Int` (Go `int` is 64-bit;
no quantity in the modelled code ever approaches overflow, every claim is
about small screen dimensions).  Go integer division truncates toward zero;
it is modelled by `godiv` below.  The `tcell.Screen` drawing surface is
modelled by the log of the `SetContent` calls a render performs, in call
order; the `tcell.Style` argument of `SetContent` is not modelled (no claim
mentions styling attributes, only coordinates and characters).
-/

namespace Rego

/-- Go integer division: truncation toward zero (`Int.tdiv`).  Every division
in the modelled code happens on non-negative operands, where this agrees with
Euclidean division. -/
def godiv (a b : Int) : Int := Int.tdiv a b

/-- Go `for v := a; v < b; v++`: the list of integers `a, a+1, ..., b-1`
(empty when `b ≤ a`). -/
def intRange (a b : Int) : List Int :=
  (List.range (b - a).toNat).map fun i => a + (i : Int)

/-- Color values (`part_001`).  Only `Color.default` is ever inspected by the
layout code (`style.bg != Default` decides background drawing); the concrete
palette is irrelevant to the claims, so a small representative set is kept. -/
inductive Color where
  | default | black | red | green | yellow | blue | magenta | cyan | white | gray
  deriving DecidableEq, Repr

/-- Alignment (`part_001`): `AlignLeft` / `AlignCenter` / `AlignRight`.  In
vertical contexts the source reuses these as top/center/bottom. -/
inductive Align where
  | left | center | right
  deriving DecidableEq, Repr

/-- Border style (`part_001`).  The layout code only tests `border != BorderNone`. -/
inductive BorderStyle where
  | none | single | double | rounded | thick
  deriving DecidableEq, Repr

/-- The `Style` struct of `part_001`.  Default values are Go zero values with
`defaultStyle()` setting colors to `Default` and both alignments to `AlignLeft`. -/
structure Style where
  fg : Color := .default
  bg : Color := .default
  bold : Bool := false
  italic : Bool := false
  underline : Bool := false
  dim : Bool := false
  blink : Bool := false
  width : Int := 0
  height : Int := 0
  flex : Int := 0
  paddingTop : Int := 0
  paddingBottom : Int := 0
  paddingLeft : Int := 0
  paddingRight : Int := 0
  border : BorderStyle := .none
  borderColor : Color := .default
  align : Align := .left
  valign : Align := .left
  deriving DecidableEq, Repr

/-- The Go `defaultStyle()` of `part_001`. -/
def defaultStyle : Style := {}

/-- Modelled from the spec: the display width of a character as computed by
the external `go-runewidth` library (an out-of-scope collaborator whose source
is not part of this repository).  Per the spec's text-wrapping rule, wide
glyphs count as 2 columns; control characters (such as the newline) occupy 0
columns; every other character occupies 1. -/
def isWideRune (r : Char) : Bool :=
  (0x1100 ≤ r.toNat && r.toNat ≤ 0x115F) ||
  (0x2E80 ≤ r.toNat && r.toNat ≤ 0xA4CF) ||
  (0xAC00 ≤ r.toNat && r.toNat ≤ 0xD7A3) ||
  (0xF900 ≤ r.toNat && r.toNat ≤ 0xFAFF) ||
  (0xFF00 ≤ r.toNat && r.toNat ≤ 0xFF60)

/-- Modelled from the spec: `runewidth.RuneWidth`. -/
def runeWidth (r : Char) : Int :=
  if r.toNat < 0x20 then 0
  else if isWideRune r then 2 else 1

/-- Modelled from the spec: `runewidth.StringWidth` (sum of rune widths).
Strings are modelled as their list of runes. -/
def stringWidth (content : List Char) : Int :=
  content.foldl (fun acc r => acc + runeWidth r) 0

/-- The `Node` interface of `part_000`, as a closed datatype over the variants
the claims exercise: `textNode`, `boxNode`, `vstackNode`, `spacerNode`,
`emptyNode` and `scrollNode`.  A `boxNode`/`scrollNode` child may be absent
(`nil` in Go).  Variants not needed by any claim (`hstackNode`, `whenNode`,
`whenElseNode`, `dividerNode`, `cursorNode`, `markdownNode`, `componentNode`)
are not modelled.  In Go a `VStack` child slot can also hold `nil`; the model
has no nil nodes (the source filters them out before any computation, so a
nil child slot is observably the same as an absent slot). -/
inductive Node where
  | text (content : List Char) (style : Style) (wrap : Bool)
  | box (child : Option Node) (style : Style)
  | vstack (children : List Node) (style : Style) (gap : Int) (justify : Align)
  | spacer
  | empty
  | scroll (child : Option Node) (offY : Int) (autoScroll : Bool) (flex : Int)
  deriving Repr

/-- Which node types implement the Go `flexNode` interface (declare both
`getFlex()` and `getHeight()`): `boxNode`, `vstackNode`, `spacerNode` and
`scrollNode` do; `textNode` and `emptyNode` do not. -/
def Node.isFlexNode : Node → Bool
  | .box .. => true
  | .vstack .. => true
  | .spacer => true
  | .scroll .. => true
  | _ => false

/-- The `getFlex()` methods of `part_000`: `spacerNode` always reports 1,
`scrollNode` defaults to 1 when unset, box/vstack report their style flex. -/
def Node.getFlex : Node → Int
  | .box _ s => s.flex
  | .vstack _ s _ _ => s.flex
  | .spacer => 1
  | .scroll _ _ _ f => if f > 0 then f else 1
  | _ => 0

/-- One step of the text-wrapping measurement loop of `measureNodeHeight`
(`part_000` lines 1124-1138).  The state is `(currentX, lines)`. -/
def measureStepWrap (width : Int) (st : Int × Int) (r : Char) : Int × Int :=
  let cw := runeWidth r
  let st := if st.1 + cw > width then (0, st.2 + 1) else st
  if r = '\n' then (0, st.2 + 1) else (st.1 + cw, st.2)

/-- The wrapped-text line count: the `textNode` case of `measureNodeHeight`
when `wrap` is on and `width > 0`. -/
def textWrapLines (content : List Char) (width : Int) : Int :=
  (content.foldl (measureStepWrap width) (0, 1)).2

mutual

/-- The `measureNodeHeight` function of `part_000` (lines 1117-1207),
restricted to the modelled variants.  The `vstack` case is the
`vstackNode.measureHeight` method (`part_000` lines 512-532) inlined, with
`measureChildrenTotal` as its summation loop. -/
def measureNodeHeight : Node → Int → Int
  | .text content _ wrap, width =>
      if !wrap || width ≤ 0 then 1 else textWrapLines content width
  | .vstack children style gap _, width =>
      let innerWidth := width - (style.paddingLeft + style.paddingRight)
      if innerWidth ≤ 0 then style.paddingTop + style.paddingBottom
      else
        let total := measureChildrenTotal children innerWidth
        let count : Int := children.length
        let total := if count > 1 then total + (count - 1) * gap else total
        total + style.paddingTop + style.paddingBottom
  | .box child style, width =>
      if style.height > 0 then style.height
      else
        let innerHeight :=
          match child with
          | Option.none => 1
          | Option.some c =>
              let innerW := if style.border ≠ .none then width - 2 else width
              let innerW := innerW - (style.paddingLeft + style.paddingRight)
              measureNodeHeight c innerW
        if innerHeight = 0 then 0
        else
          let borderSize : Int := if style.border ≠ .none then 2 else 0
          innerHeight + borderSize + style.paddingTop + style.paddingBottom
  | .spacer, _ => 0
  | .scroll .., _ => 0
  | .empty, _ => 0

/-- The summation loop inside `vstackNode.measureHeight`. -/
def measureChildrenTotal : List Node → Int → Int
  | [], _ => 0
  | c :: cs, w => measureNodeHeight c w + measureChildrenTotal cs w

end

/-- One `SetContent(x, y, ch, ...)` call on a `tcell.Screen` (the style
argument is not modelled; no claim concerns it). -/
structure CellWrite where
  x : Int
  y : Int
  ch : Char
  deriving DecidableEq, Repr

/-- The result of a `render` call: the `SetContent` calls it performed on its
screen argument, in call order, and the used height it returned.
`scrollSets` is the list of values passed to `scrollTopState.Set` by scroll
nodes during the render (the write-back of the auto-tail offset to the
persisted state cell), in call order. -/
structure RenderOut where
  writes : List CellWrite := []
  used : Int := 0
  scrollSets : List Int := []
  deriving DecidableEq, Repr

/-- The `clipScreen.SetContent` proxy of `part_000` (lines 34-44) applied to a
single write: translate by the offset, keep the write only when the translated
coordinate lies inside the viewport rectangle. -/
def clipWrite (viewX viewY viewW viewH offX offY : Int) (w : CellWrite) :
    List CellWrite :=
  let realX := w.x + offX
  let realY := w.y + offY
  if viewX ≤ realX ∧ realX < viewX + viewW ∧ viewY ≤ realY ∧ realY < viewY + viewH
  then [⟨realX, realY, w.ch⟩] else []

/-- The `clipScreen` proxy applied to a whole render's write log: each
`SetContent` call is forwarded or dropped independently, in order. -/
def clipWrites (viewX viewY viewW viewH offX offY : Int) (ws : List CellWrite) :
    List CellWrite :=
  ws.flatMap (clipWrite viewX viewY viewW viewH offX offY)

/-- The border character set of `part_001` (`getBorderChars`). -/
structure BorderChars where
  topLeft : Char
  topRight : Char
  bottomLeft : Char
  bottomRight : Char
  horizontal : Char
  vertical : Char
  deriving DecidableEq, Repr

/-- The `getBorderChars` function of `part_001` (default: Go zero value, the
NUL character). -/
def getBorderChars : BorderStyle → BorderChars
  | .single => ⟨'┌', '┐', '└', '┘', '─', '│'⟩
  | .double => ⟨'╔', '╗', '╚', '╝', '═', '║'⟩
  | .rounded => ⟨'╭', '╮', '╰', '╯', '─', '│'⟩
  | .thick => ⟨'┏', '┓', '┗', '┛', '━', '┃'⟩
  | .none => ⟨'\x00', '\x00', '\x00', '\x00', '\x00', '\x00'⟩

/-- The `boxNode.drawBackground` method of `box.go` (lines 112-119): fill the
rectangle with spaces, row-major. -/
def drawBackground (x y width height : Int) : List CellWrite :=
  (intRange y (y + height)).flatMap fun row =>
    (intRange x (x + width)).map fun col => (⟨col, row, ' '⟩ : CellWrite)

/-- The `boxNode.renderBorder` method of `box.go` (lines 121-142): four
corners, then the two horizontal edges, then the two vertical edges. -/
def renderBorder (style : BorderStyle) (x y width height : Int) : List CellWrite :=
  let chars := getBorderChars style
  [⟨x, y, chars.topLeft⟩, ⟨x + width - 1, y, chars.topRight⟩,
   ⟨x, y + height - 1, chars.bottomLeft⟩,
   ⟨x + width - 1, y + height - 1, chars.bottomRight⟩]
  ++ (intRange (x + 1) (x + width - 1)).flatMap
      (fun col => [⟨col, y, chars.horizontal⟩, ⟨col, y + height - 1, chars.horizontal⟩])
  ++ (intRange (y + 1) (y + height - 1)).flatMap
      (fun row => [⟨x, row, chars.vertical⟩, ⟨x + width - 1, row, chars.vertical⟩])

/-- The single-row character placement loop of the non-wrapping `textNode.render`
path (`part_000` lines 338-346): stop at the first character that would
overrun `xLimit = x + actualWidth`. -/
def textRowLoop (xLimit : Int) : List Char → Int → Int → List CellWrite
  | [], _, _ => []
  | r :: rest, col, y =>
      let cw := runeWidth r
      if col + cw > xLimit then []
      else ⟨col, y, r⟩ :: textRowLoop xLimit rest (col + cw) y

/-- Loop state of the wrapping `textNode.render` path (`part_000` lines
350-383).  `stopped` models the `break` taken when `lines` exceeds the
granted height. -/
structure WrapRenderState where
  cx : Int
  cy : Int
  lines : Int
  writes : List CellWrite
  stopped : Bool
  deriving DecidableEq, Repr

/-- One iteration of the wrapping `textNode.render` loop. -/
def renderStepWrap (x width height : Int) (st : WrapRenderState) (r : Char) :
    WrapRenderState :=
  if st.stopped then st
  else
    let cw := runeWidth r
    let st :=
      if st.cx + cw > x + width then
        let lines := st.lines + 1
        { st with cx := x, cy := st.cy + 1, lines := lines, stopped := lines > height }
      else st
    if st.stopped then st
    else if r = '\n' then
      let lines := st.lines + 1
      { st with cx := x, cy := st.cy + 1, lines := lines, stopped := lines > height }
    else
      { st with writes := st.writes ++ [⟨st.cx, st.cy, r⟩], cx := st.cx + cw }

/-- The `textNode.render` method of `part_000` (lines 312-384). -/
def textRender (content : List Char) (style : Style) (wrap : Bool)
    (x y width height : Int) : RenderOut :=
  if height ≤ 0 then ⟨[], 0, []⟩
  else
    let actualWidth := if style.width > 0 ∧ style.width < width then style.width else width
    if !wrap then
      let textWidth := stringWidth content
      let startX :=
        match style.align with
        | .center => if textWidth < actualWidth then x + godiv (actualWidth - textWidth) 2 else x
        | .right => if textWidth < actualWidth then x + actualWidth - textWidth else x
        | .left => x
      ⟨textRowLoop (x + actualWidth) content startX y, 1, []⟩
    else
      let final := content.foldl (renderStepWrap x width height) ⟨x, y, 1, [], false⟩
      ⟨final.writes, final.lines, []⟩

/-- First pass of `vstackNode.render` (`part_000` lines 578-584): one loop
over the children accumulating `(fixedHeight, totalFlex)` — a non-flex child
contributes its measured height, a flex child its weight. -/
def vstackFixedAndFlex (children : List Node) (width : Int) : Int × Int :=
  children.foldl
    (fun acc c =>
      if c.isFlexNode ∧ c.getFlex > 0 then (acc.1, acc.2 + c.getFlex)
      else (acc.1 + measureNodeHeight c width, acc.2))
    (0, 0)

/-- The straight-line prefix of `vstackNode.render` (`part_000` lines 543-613)
up to the start of the child loop: padding, the empty/degenerate early
returns, the fixed/flex pass, the flex unit, and the `justify` start offset.
Returns `none` on the early `return 0` paths, otherwise the padded rectangle,
the justify-adjusted start position and the flex unit height. -/
structure VStackSetup where
  px : Int
  py : Int
  pwidth : Int
  pheight : Int
  startY : Int
  flexUnit : Int
  deriving DecidableEq, Repr

def vstackSetup (children : List Node) (style : Style) (gap : Int)
    (justify : Align) (x y width height : Int) : Option VStackSetup :=
  if children.isEmpty then Option.none
  else
    let x := x + style.paddingLeft
    let y := y + style.paddingTop
    let width := width - (style.paddingLeft + style.paddingRight)
    let height := height - (style.paddingTop + style.paddingBottom)
    if width ≤ 0 ∨ height ≤ 0 then Option.none
    else
      let numGaps : Int := if (children.length : Int) - 1 < 0 then 0 else (children.length : Int) - 1
      let ff := vstackFixedAndFlex children width
      let fixedHeight := numGaps * gap + ff.1
      let totalFlex := ff.2
      let remainingHeight := if height - fixedHeight < 0 then 0 else height - fixedHeight
      let flexUnitHeight := if totalFlex > 0 then godiv remainingHeight totalFlex else 0
      let totalContentHeight := if totalFlex > 0 then fixedHeight + remainingHeight else fixedHeight
      let startY :=
        match justify with
        | .center => if totalContentHeight < height then y + godiv (height - totalContentHeight) 2 else y
        | .right => if totalContentHeight < height then y + (height - totalContentHeight) else y
        | .left => y
      Option.some ⟨x, y, width, height, startY, flexUnitHeight⟩

/-- State of the `vstackNode.render` child loop (`part_000` lines 615-644).
`granted` is ghost instrumentation recording the height granted to each child
in turn (the `childHeight` passed to its `render` call); it feeds no other
field and exists only so theorems can speak about the per-child allocation. -/
structure VLoopState where
  currentY : Int
  totalUsed : Int
  writes : List CellWrite
  scrollSets : List Int
  granted : List Int
  deriving DecidableEq, Repr

mutual

/-- The `render` methods of the modelled node variants (`part_000` for text,
vstack, spacer, empty and scroll; `box.go` lines 30-110 for box). -/
def Node.render : Node → Int → Int → Int → Int → RenderOut
  | .text content style wrap, x, y, width, height =>
      textRender content style wrap x y width height
  | .empty, _, _, _, _ => ⟨[], 0, []⟩
  | .spacer, _, _, _, height => ⟨[], height, []⟩
  | .box child style, x, y, width, height =>
      if height ≤ 0 ∨ width ≤ 0 then ⟨[], 0, []⟩
      else
        let actualWidth := if style.width > 0 ∧ style.width < width then style.width else width
        let actualHeight := if style.height > 0 ∧ style.height < height then style.height else height
        let borderSize : Int := if style.border ≠ .none then 1 else 0
        let maxContentWidth := actualWidth - borderSize * 2 - style.paddingLeft - style.paddingRight
        let maxContentHeight := actualHeight - borderSize * 2 - style.paddingTop - style.paddingBottom
        let bg := if style.bg ≠ .default then drawBackground x y actualWidth actualHeight else []
        let bd := if style.border ≠ .none then renderBorder style.border x y actualWidth actualHeight else []
        if maxContentWidth ≤ 0 ∨ maxContentHeight ≤ 0 then
          ⟨bg ++ bd, actualHeight, []⟩
        else
          let childHeight :=
            match child with
            | Option.none => 0
            | Option.some c => measureNodeHeight c maxContentWidth
          let contentY :=
            let base := y + borderSize + style.paddingTop
            if style.height > 0 ∨ height > childHeight then
              if childHeight < maxContentHeight then
                match style.valign with
                | .center => base + godiv (maxContentHeight - childHeight) 2
                | .right => base + (maxContentHeight - childHeight)
                | .left => base
              else base
            else base
          let contentX := x + borderSize + style.paddingLeft
          let childOut :=
            match child with
            | Option.none => (⟨[], 0, []⟩ : RenderOut)
            | Option.some c => Node.render c contentX contentY maxContentWidth maxContentHeight
          let ret :=
            if style.height > 0 then style.height
            else childOut.used + borderSize * 2 + style.paddingTop + style.paddingBottom
          ⟨bg ++ bd ++ childOut.writes, ret, childOut.scrollSets⟩
  | .vstack children style gap justify, x, y, width, height =>
      match vstackSetup children style gap justify x y width height with
      | Option.none => ⟨[], 0, []⟩
      | Option.some s =>
          let st := vstackLoop children s.px s.py s.pheight s.pwidth gap s.flexUnit
            ⟨s.startY, 0, [], [], []⟩
          ⟨st.writes, st.totalUsed, st.scrollSets⟩
  | .scroll child offY0 autoScroll _flex, x, y, width, height =>
      match child with
      | Option.none => ⟨[], 0, []⟩
      | Option.some c =>
          let contentHeight := measureNodeHeight c (width - 1)
          let tail := autoScroll ∧ contentHeight > height
          let offY := if tail then contentHeight - height else offY0
          let sets := if tail then [contentHeight - height] else []
          let childOut := Node.render c x y (width - 1) 1000
          let contentWrites := clipWrites x y (width - 1) height 0 (-offY) childOut.writes
          let scrollbarX := x + width - 1
          let track := (intRange 0 height).map fun i =>
            (⟨scrollbarX, y + i, '│'⟩ : CellWrite)
          let thumb :=
            if contentHeight > height then
              let th := godiv (height * height) contentHeight
              let th := if th < 1 then 1 else th
              let tp := godiv (offY * height) contentHeight
              let tp := if tp + th > height then height - th else tp
              (intRange 0 th).map fun i => (⟨scrollbarX, y + tp + i, '┃'⟩ : CellWrite)
            else []
          ⟨contentWrites ++ track ++ thumb, height, sets ++ childOut.scrollSets⟩

/-- The child loop of `vstackNode.render` (`part_000` lines 615-644): break
when `currentY` passes the bottom, measure or flex-allocate the child height,
clamp it to the remaining space, render, fall back to the granted height when
a flex child reports 0, advance by the used height plus the gap. -/
def vstackLoop : List Node → Int → Int → Int → Int → Int → Int → VLoopState → VLoopState
  | [], _, _, _, _, _, _, st => st
  | c :: cs, x, yTop, height, width, gap, flexUnit, st =>
      if st.currentY ≥ yTop + height then st
      else
        let measured := measureNodeHeight c width
        let childHeight :=
          if c.isFlexNode ∧ c.getFlex > 0 then flexUnit * c.getFlex else measured
        let remainingH := (yTop + height) - st.currentY
        let childHeight := if childHeight > remainingH then remainingH else childHeight
        let out := Node.render c x st.currentY width childHeight
        let used := if out.used = 0 ∧ childHeight > 0 then childHeight else out.used
        let gapAdd := if cs.isEmpty then 0 else gap
        let st' : VLoopState :=
          { currentY := st.currentY + used + gapAdd,
            totalUsed := st.totalUsed + used + gapAdd,
            writes := st.writes ++ out.writes,
            scrollSets := st.scrollSets ++ out.scrollSets,
            granted := st.granted ++ [childHeight] }
        vstackLoop cs x yTop height width gap flexUnit st'

end

/-- Observer for the flex distribution: the list of heights granted to the
children of a `VStack` render, extracted from the ghost `granted` field of
the loop state of the very same `vstackLoop` call that `Node.render` makes. -/
def vstackGranted (children : List Node) (style : Style) (gap : Int)
    (justify : Align) (x y width height : Int) : List Int :=
  match vstackSetup children style gap justify x y width height with
  | Option.none => []
  | Option.some s =>
      (vstackLoop children s.px s.py s.pheight s.pwidth gap s.flexUnit
        ⟨s.startY, 0, [], [], []⟩).granted

/-! ## Focus manager (`focus.go`)

The registry state is `(focusable, currentKey)`.  The Go `focusMap` always
holds exactly the keys of `focusable` (`Register` adds to both, `Unregister`
removes from both, `Reset` clears both), so the existence test of `Register`
is modelled as list membership; `order`/`orderMap` are written but never read
by any modelled operation. -/

structure FocusManager where
  focusable : List String
  currentKey : String
  deriving DecidableEq, Repr

/-- The `FocusManager.Register` method (`focus.go` lines 40-60): ignore a key
that is already registered; append a new key; if no key is focused yet
(empty `currentKey`), focus the newly registered key. -/
def FocusManager.Register (fm : FocusManager) (key : String) : FocusManager :=
  if key ∈ fm.focusable then fm
  else
    { focusable := fm.focusable ++ [key],
      currentKey := if fm.currentKey = "" then key else fm.currentKey }

/-- The `FocusManager.Reset` method (`focus.go` lines 169-178): clear the
registration list but keep the current focus key. -/
def FocusManager.Reset (fm : FocusManager) : FocusManager :=
  { focusable := [], currentKey := fm.currentKey }

/-- A render's registration phase: the sequence of `Register` calls made
while rendering the component tree, in order. -/
def FocusManager.registerAll (fm : FocusManager) (keys : List String) : FocusManager :=
  keys.foldl FocusManager.Register fm

/-! ## State cells and refresh scheduling (`part_015`, `runtime.go`) -/

/-- The `Runtime.scheduleRefresh` method (`runtime.go` lines 241-247): a
non-blocking send on the one-slot `refreshChan`.  The channel is modelled by
its occupancy flag `pending`; the result is the new occupancy together with
whether this call actually enqueued a request (`false` means the request was
coalesced into the one already pending). -/
def scheduleRefresh (pending : Bool) : Bool × Bool :=
  if pending then (pending, false) else (true, true)

/-- The observable outcome of one `State.Set` call: the cell value after the
call, the refresh-channel occupancy after the call, how many times
`ctx.Refresh()` (hence `Runtime.scheduleRefresh`) was invoked, and whether a
refresh request was newly enqueued. -/
structure SetOutcome (T : Type) where
  val : T
  pending : Bool
  refreshCalls : Nat
  enqueued : Bool
  deriving DecidableEq, Repr

/-- The `State.Set` method (`part_015` lines 19-27).  `reflect.DeepEqual` on
the cell's value type is modelled by decidable equality.  A deep-equal write
returns without touching the cell or the refresh channel; otherwise the value
is stored (both in `s.Val` and, via `ctx.setState`, in the persistent cell —
the model keeps the single value they share) and one refresh is scheduled. -/
def stateSet {T : Type} [DecidableEq T] (cur : T) (value : T) (pending : Bool) :
    SetOutcome T :=
  if cur = value then ⟨cur, pending, 0, false⟩
  else
    let sched := scheduleRefresh pending
    ⟨value, sched.1, 1, sched.2⟩

/-! ## Effect slots (`part_015`) -/

/-- The `effectSlot` struct of `part_015`: the stored dependency snapshot,
the stored cleanup (if any), and the has-run flag.  Dependency values
(`[]any` compared with `reflect.DeepEqual`) are modelled by an arbitrary type
with decidable equality; a cleanup callback is modelled by an opaque tag of
type `Cl` (the model never invokes callbacks, it records their invocation as
events). -/
structure EffectSlot (D Cl : Type) where
  deps : List D
  cleanup : Option Cl
  ran : Bool
  deriving DecidableEq, Repr

/-- The `depsEqual` function of `part_015` (lines 124-135): length check then
element-wise `reflect.DeepEqual`. -/
def depsEqual {D : Type} [DecidableEq D] (a b : List D) : Bool :=
  if a.length ≠ b.length then false
  else (a.zip b).all fun p => decide (p.1 = p.2)

/-- Callback invocations performed by one `UseEffect` call, in order. -/
inductive EffectEvent where
  | cleanupRun | bodyRun
  deriving DecidableEq, Repr

/-- The `UseEffect` hook (`part_015` lines 93-121) acting on one slot.
`slot` is the stored slot for this index (`none` on the first render, when
`getEffectSlot` returns nil and an empty slot is created).  `bodyCleanup` is
the cleanup the effect body returns when invoked.  The result is the slot
stored after the call and the list of callback invocations made. -/
def useEffectStep {D Cl : Type} [DecidableEq D] (slot : Option (EffectSlot D Cl))
    (deps : List D) (bodyCleanup : Option Cl) :
    EffectSlot D Cl × List EffectEvent :=
  let s := slot.getD ⟨[], Option.none, false⟩
  let shouldRun := !s.ran || !depsEqual s.deps deps
  if shouldRun then
    (⟨deps, bodyCleanup, true⟩,
     (if s.cleanup.isSome then [.cleanupRun] else []) ++ [.bodyRun])
  else (s, [])

/-! ## Main-loop panic containment (`runtime.go`) -/

/-- What one render pass of `Runtime.render` puts on the screen: the normal
component tree, or the full-screen diagnostic report (`drawErrorScreen`). -/
inductive ScreenOutput where
  | normal | diagnostic
  deriving DecidableEq, Repr

/-- The error-handling state of the `Runtime` struct: the captured panic
value, if any (`lastPanic`; the stack trace travels with it and adds nothing
to the claims). -/
structure RuntimeErrState where
  lastPanic : Option String
  deriving DecidableEq, Repr

/-- One `Runtime.render` call (`runtime.go` lines 100-151) at the level of
fault handling.  `pass` is the outcome of computing the component tree and
laying it out and drawing it — `Except.error e` when that computation panics
with value `e`.  A previously captured panic short-circuits to the diagnostic
screen; a fresh panic is recovered exactly here, captured into `lastPanic`,
and the diagnostic screen is drawn; otherwise the pass renders normally.
`lastPanic` is never cleared anywhere in the source. -/
def renderPass (st : RuntimeErrState) (pass : Except String Unit) :
    RuntimeErrState × ScreenOutput :=
  if st.lastPanic.isSome then (st, .diagnostic)
  else
    match pass with
    | .error e => (⟨Option.some e⟩, .diagnostic)
    | .ok _ => (st, .normal)

/-- The main loop's successive render passes: each iteration of the loop in
`Runtime.Run` performs one `renderPass`; the loop itself never terminates on
a panic (the recover absorbs it), modelled by this function being total. -/
def runPasses (st : RuntimeErrState) : List (Except String Unit) → List ScreenOutput
  | [] => []
  | p :: ps =>
      let r := renderPass st p
      r.2 :: runPasses r.1 ps

/-! ## Mouse event dispatch (`context.go`) -/

/-- The `Rect` struct of `context.go`. -/
structure Rect where
  X : Int
  Y : Int
  W : Int
  H : Int
  deriving DecidableEq, Repr

/-- The `Rect.Contains` method of `context.go` (lines 14-16). -/
def Rect.Contains (r : Rect) (x y : Int) : Bool :=
  x ≥ r.X && x < r.X + r.W && y ≥ r.Y && y < r.Y + r.H

/-- The `MouseEventType` constants of `context.go`. -/
inductive MouseEventType where
  | press | release | click | move | scrollUp | scrollDown
  deriving DecidableEq, Repr

/-- The `MouseButton` constants of `context.go`. -/
inductive MouseButton where
  | none | left | middle | right
  deriving DecidableEq, Repr

/-- The `MouseEvent` struct of `context.go`. -/
structure MouseEvent where
  x : Int
  y : Int
  button : MouseButton
  type : MouseEventType
  deriving DecidableEq, Repr

/-- The shape of a `componentContext` tree relevant to mouse dispatch: the
last-rendered rectangle, whether a `mouseHandler` is registered, and the
child contexts.  The Go children live in a map with unspecified iteration
order; the model fixes one order as a list — no dispatch claim depends on
sibling order. -/
inductive CtxTree where
  | mk (rect : Rect) (hasMouseHandler : Bool) (children : List CtxTree)

/-- The event actually passed to a context's `mouseHandler` by
`dispatchMouseEvent` (`context.go` lines 235-255): the event itself when the
point lies in the context's rectangle, otherwise a copy whose type is
replaced by `MouseEventMove`. -/
def deliveredEvent (rect : Rect) (ev : MouseEvent) : MouseEvent :=
  if rect.Contains ev.x ev.y then ev else { ev with type := .move }

mutual

/-- The `componentContext.dispatchMouseEvent` method (`context.go` lines
235-255), observed as the list of handler invocations it performs: the
context's own handler first (with the possibly-retyped event), then every
descendant, each receiving the original event for its own containment test. -/
def dispatchMouseEvent : CtxTree → MouseEvent → List MouseEvent
  | .mk rect hasH children, ev =>
      (if hasH then [deliveredEvent rect ev] else []) ++
      dispatchMouseChildren children ev

/-- The child loop of `dispatchMouseEvent`: the recursion passes the original
event `ev` unchanged to every child. -/
def dispatchMouseChildren : List CtxTree → MouseEvent → List MouseEvent
  | [], _ => []
  | c :: cs, ev => dispatchMouseEvent c ev ++ dispatchMouseChildren cs ev

end

mutual

/-- The rectangles of the handler-bearing contexts of a tree, in dispatch
order. -/
def handlerRects : CtxTree → List Rect
  | .mk rect hasH children =>
      (if hasH then [rect] else []) ++ handlerRectsList children

/-- List version of `handlerRects`. -/
def handlerRectsList : List CtxTree → List Rect
  | [] => []
  | c :: cs => handlerRects c ++ handlerRectsList cs

end

/-! ## Concrete fixtures used by the theorems -/

/-- A purely flexible filler of weight `w`: a child-less `VStack` whose style
flex is `w` (a `vstackNode` implements the `flexNode` interface, so a stack
sees it as a flex child of weight `w`; its own render uses no rows). -/
def flexChild (w : Int) : Node :=
  Node.vstack [] { defaultStyle with flex := w } 0 .left

/-- Twenty one-row text nodes with distinct characters `a` … `t`: a content
column of measured height 20. -/
def rows20 : List Node :=
  (List.range 20).map fun i => Node.text [Char.ofNat (97 + i)] defaultStyle false

/-- A fixed-height-10 box granted only 5 rows: the C1 failing input. -/
def boxFixed10 : Node :=
  Node.box (Option.some (Node.text ['h', 'i'] defaultStyle false))
    { defaultStyle with height := 10 }

/-- The C5 scenario: an auto-tail scroll node over the 20-row content. -/
def tailScroll20 : Node :=
  Node.scroll (Option.some (Node.vstack rows20 defaultStyle 0 .left)) 0 true 0

/-- A small context tree for the mouse-dispatch witness: a handler-bearing
root at `(0,0) 10x10`, a handler-bearing child at `(20,20) 5x5`, and a
handler-less child. -/
def ctxFixture : CtxTree :=
  .mk ⟨0, 0, 10, 10⟩ true [.mk ⟨20, 20, 5, 5⟩ true [], .mk ⟨0, 0, 3, 3⟩ false []]

/-- A left-button click at `(1,1)`. -/
def evFixture : MouseEvent := ⟨1, 1, .left, .click⟩

/-! ## Theorems -/

/-- C1: the claim asserts that every `render` call returns a used height of at
most the granted height, in particular for a Box whose fixed style height
exceeds the granted height.  The code violates this at exactly that input:
a Box with fixed style height 10 and no border or padding, granted a height
of 5 (width 20), draws only inside the granted region (its text lands on the
single row 0) yet returns used height 10, which exceeds the granted 5 —
`boxNode.render` returns `b.style.height` without clamping it to the grant
even though its drawing clamps to `actualHeight`. -/
theorem box_fixed_height_return_exceeds_grant :
    (Node.render boxFixed10 0 0 20 5).used = 10 ∧
    ¬ (Node.render boxFixed10 0 0 20 5).used ≤ 5 ∧
    (Node.render boxFixed10 0 0 20 5).writes =
      [⟨0, 0, 'h'⟩, ⟨1, 0, 'i'⟩] := by
  refine ⟨by decide, by decide, by decide⟩

/-- C7: a `State.Set` with a value deep-equal to the current one leaves the
cell untouched and never reaches the refresh channel; a different value is
stored, `scheduleRefresh` is called exactly once, the one-slot refresh
channel is occupied afterwards, and the request is newly enqueued exactly
when the channel was empty (otherwise it coalesces with the pending one). -/
theorem state_set_noop_suppression {T : Type} [DecidableEq T]
    (cur value : T) (pending : Bool) :
    (cur = value → stateSet cur value pending = ⟨cur, pending, 0, false⟩) ∧
    (cur ≠ value →
      stateSet cur value pending = ⟨value, true, 1, !pending⟩) := by
  constructor
  · intro h
    simp [stateSet, h]
  · intro h
    cases pending <;> simp [stateSet, h, scheduleRefresh]

/-- C7 witness: concrete no-op write and concrete updating write. -/
theorem state_set_noop_suppression_witness :
    ((7 : Nat) = 7 ∧ stateSet (7 : Nat) 7 false = ⟨7, false, 0, false⟩) ∧
    ((7 : Nat) ≠ 8 ∧ stateSet (7 : Nat) 8 false = ⟨8, true, 1, true⟩) :=
  ⟨⟨rfl, (state_set_noop_suppression 7 7 false).1 rfl⟩,
   ⟨by decide, (state_set_noop_suppression 7 8 false).2 (by decide)⟩⟩

/-- Once `lastPanic` is captured, every later pass draws the diagnostic
screen: the branch at the top of `Runtime.render` short-circuits and nothing
in the source ever clears `lastPanic`. -/
theorem runPasses_of_panicked (st : RuntimeErrState) (h : st.lastPanic.isSome)
    (l : List (Except String Unit)) :
    runPasses st l = List.replicate l.length ScreenOutput.diagnostic := by
  induction l with
  | nil => rfl
  | cons p ps ih =>
      simp [runPasses, renderPass, h, List.replicate, ih]

/-- C9: if any render pass faults (its tree computation, layout or draw
panics), the main loop keeps iterating — `runPasses` is total and yields one
screen per pass — the faulting pass itself already shows the diagnostic
screen, and every subsequent pass shows the diagnostic screen no matter how
it would have rendered: there is no return to normal rendering. -/
theorem fault_containment (st : RuntimeErrState) (ps qs : List (Except String Unit))
    (e : String) :
    runPasses st (ps ++ .error e :: qs) =
      runPasses st ps ++
        ScreenOutput.diagnostic :: List.replicate qs.length ScreenOutput.diagnostic := by
  induction ps generalizing st with
  | nil =>
      rcases hst : st.lastPanic with _ | v
      · simp [runPasses, renderPass, hst,
          runPasses_of_panicked ⟨Option.some e⟩ (by simp) qs]
      · have h : st.lastPanic.isSome := by simp [hst]
        simpa [runPasses, renderPass, h] using runPasses_of_panicked st h qs
  | cons p ps ih =>
      simp only [List.cons_append, runPasses, List.append_eq]
      rw [ih]

/-- C2 counterexample: rebuild the registry from a state whose focused key is
`a` and register only `b`.  The claim says focus must fall back to the first
registered key (`b`); the code instead keeps the stale key `a`, which is not
even in the new registration set — `Reset` preserves `currentKey` and
`Register` only replaces an empty one. -/
theorem focus_rebuild_counterexample :
    (FocusManager.registerAll (FocusManager.Reset ⟨["a"], "a"⟩) ["b"]).currentKey = "a" ∧
    "a" ∉ (FocusManager.registerAll (FocusManager.Reset ⟨["a"], "a"⟩) ["b"]).focusable ∧
    (FocusManager.registerAll (FocusManager.Reset ⟨["a"], "a"⟩) ["b"]).focusable = ["b"] := by
  refine ⟨by decide, by decide, by decide⟩

/-- A `Register` never changes a non-empty current key. -/
theorem Register_currentKey_of_ne (fm : FocusManager) (k : String)
    (h : fm.currentKey ≠ "") : (fm.Register k).currentKey = fm.currentKey := by
  unfold FocusManager.Register
  split
  · rfl
  · simp [h]

/-- A registration phase never changes a non-empty current key. -/
theorem registerAll_currentKey_of_ne (keys : List String) (fm : FocusManager)
    (h : fm.currentKey ≠ "") :
    (fm.registerAll keys).currentKey = fm.currentKey := by
  induction keys generalizing fm with
  | nil => rfl
  | cons k ks ih =>
      have h1 := Register_currentKey_of_ne fm k h
      have h2 := ih (fm.Register k) (by rw [h1]; exact h)
      simpa [FocusManager.registerAll, h1] using h2.trans h1

/-- `Register` only ever appends to the registration list. -/
theorem Register_focusable_mono (fm : FocusManager) (k j : String)
    (h : j ∈ fm.focusable) : j ∈ (fm.Register k).focusable := by
  unfold FocusManager.Register
  split
  · exact h
  · simp [h]

/-- A registered key is in the registration list afterwards. -/
theorem Register_mem_focusable (fm : FocusManager) (k : String) :
    k ∈ (fm.Register k).focusable := by
  unfold FocusManager.Register
  split
  · assumption
  · simp

/-- A registration phase only ever grows the registration list. -/
theorem registerAll_focusable_mono (keys : List String) (fm : FocusManager)
    (j : String) (h : j ∈ fm.focusable) :
    j ∈ (fm.registerAll keys).focusable := by
  induction keys generalizing fm with
  | nil => exact h
  | cons k ks ih => exact ih (fm.Register k) (Register_focusable_mono fm k j h)

/-- One step of the registration phase. -/
theorem registerAll_cons (fm : FocusManager) (j : String) (js : List String) :
    fm.registerAll (j :: js) = (fm.Register j).registerAll js := rfl

/-- Every key passed to the registration phase ends up registered. -/
theorem registerAll_mem_focusable (keys : List String) (fm : FocusManager)
    (k : String) (h : k ∈ keys) : k ∈ (fm.registerAll keys).focusable := by
  induction keys generalizing fm with
  | nil => cases h
  | cons j js ih =>
      rw [registerAll_cons]
      rcases List.mem_cons.mp h with rfl | h2
      · exact registerAll_focusable_mono js (fm.Register k) k
          (Register_mem_focusable fm k)
      · exact ih (fm.Register j) h2

/-- C2 (amended): across a rebuild — `Reset` followed by the render's
`Register` calls (none registering the empty string, which encodes "no
focus") — the current key is unchanged whenever it was non-empty before the
rebuild, whether or not it is re-registered (so a re-registered focused key
stays focused, but a vanished one is kept as a stale current key rather than
falling back to the first registered key); when no key was focused, the
current key becomes the first registered key, or stays none when nothing is
registered.  Every registered key is in the new set. -/
theorem focus_rebuild_currentKey (fm : FocusManager) (keys : List String)
    (hkeys : ∀ k ∈ keys, k ≠ "") :
    ((fm.currentKey ≠ "" →
        ((fm.Reset).registerAll keys).currentKey = fm.currentKey) ∧
     (fm.currentKey = "" →
        ((fm.Reset).registerAll keys).currentKey = keys.headD "") ∧
     (∀ k ∈ keys, k ∈ ((fm.Reset).registerAll keys).focusable)) := by
  refine ⟨?_, ?_, ?_⟩
  · intro h
    exact registerAll_currentKey_of_ne keys fm.Reset h
  · intro h
    cases keys with
    | nil => simpa [FocusManager.registerAll, FocusManager.Reset] using h
    | cons k ks =>
        have hk : k ≠ "" := hkeys k (by simp)
        rw [registerAll_cons]
        have hreg : (fm.Reset).Register k = ⟨[k], k⟩ := by
          simp [FocusManager.Register, FocusManager.Reset, h]
        rw [hreg]
        simpa using registerAll_currentKey_of_ne ks ⟨[k], k⟩ hk
  · intro k hk
    exact registerAll_mem_focusable keys fm.Reset k hk

/-- C2 witness: a focused key `b` that is re-registered stays focused, and
both registered keys are in the new set. -/
theorem focus_rebuild_currentKey_witness :
    (∀ k ∈ ["b", "c"], k ≠ "") ∧
    (((FocusManager.mk ["a", "b"] "b").currentKey ≠ "" →
        (((FocusManager.mk ["a", "b"] "b").Reset).registerAll ["b", "c"]).currentKey =
          (FocusManager.mk ["a", "b"] "b").currentKey) ∧
     ((FocusManager.mk ["a", "b"] "b").currentKey = "" →
        (((FocusManager.mk ["a", "b"] "b").Reset).registerAll ["b", "c"]).currentKey =
          (["b", "c"] : List String).headD "") ∧
     (∀ k ∈ ["b", "c"],
        k ∈ (((FocusManager.mk ["a", "b"] "b").Reset).registerAll ["b", "c"]).focusable)) :=
  ⟨by decide, focus_rebuild_currentKey ⟨["a", "b"], "b"⟩ ["b", "c"] (by decide)⟩

/-- `depsEqual` decides structural element-wise equality of the two
dependency lists. -/
theorem depsEqual_iff {D : Type} [DecidableEq D] :
    ∀ (a b : List D), depsEqual a b = true ↔ a = b
  | [], [] => by simp [depsEqual]
  | [], _ :: _ => by simp [depsEqual]
  | _ :: _, [] => by simp [depsEqual]
  | x :: xs, y :: ys => by
      have ih := depsEqual_iff xs ys
      by_cases hl : xs.length = ys.length
      · have hx : depsEqual (x :: xs) (y :: ys)
            = (decide (x = y) && (xs.zip ys).all fun p => decide (p.1 = p.2)) := by
          simp [depsEqual, hl]
        have hx2 : depsEqual xs ys
            = ((xs.zip ys).all fun p => decide (p.1 = p.2)) := by
          simp [depsEqual, hl]
        rw [hx2] at ih
        rw [hx, Bool.and_eq_true, decide_eq_true_eq, ih]
        constructor
        · rintro ⟨rfl, rfl⟩; rfl
        · intro h
          injection h with h1 h2
          exact ⟨h1, h2⟩
      · have hne : ¬ (x :: xs = y :: ys) := by
          intro h; cases h; exact hl rfl
        simp [depsEqual, hl, hne]

/-- C6: an effect slot's behavior across renders.  On the slot's first render
(no stored slot) the body runs.  When the slot has run and the new dependency
list is element-wise equal to the stored one, neither the body nor the
cleanup is invoked and the slot is unchanged.  When the dependency list
differs, the stored cleanup (if one exists) is invoked exactly once, then the
body exactly once and in that order, and the slot stores the new dependency
list and the body's returned cleanup. -/
theorem effect_dependency_gating {D Cl : Type} [DecidableEq D]
    (s : EffectSlot D Cl) (deps : List D) (bodyCleanup : Option Cl) :
    (useEffectStep (Option.none) deps bodyCleanup =
        (⟨deps, bodyCleanup, true⟩, [.bodyRun])) ∧
    (s.ran = true → s.deps = deps →
        useEffectStep (Option.some s) deps bodyCleanup = (s, [])) ∧
    (s.ran = true → s.deps ≠ deps →
        useEffectStep (Option.some s) deps bodyCleanup =
          (⟨deps, bodyCleanup, true⟩,
           (if s.cleanup.isSome then [.cleanupRun] else []) ++ [.bodyRun])) := by
  refine ⟨?_, ?_, ?_⟩
  · simp [useEffectStep]
  · intro hran hdeps
    have he : depsEqual s.deps deps = true := (depsEqual_iff s.deps deps).mpr hdeps
    simp [useEffectStep, hran, he]
  · intro hran hdeps
    have he : depsEqual s.deps deps = false := by
      rcases h : depsEqual s.deps deps with _ | _
      · rfl
      · exact absurd ((depsEqual_iff s.deps deps).mp h) hdeps
    simp [useEffectStep, hran, he]

/-- C6 witness: the spec's three-render scenario — deps `[1]` runs the body,
deps `[1]` again runs nothing, deps `[2]` runs the stored cleanup then the
new body. -/
theorem effect_dependency_gating_witness :
    (useEffectStep (Option.none : Option (EffectSlot Nat Nat)) [1] (Option.some 5) =
        (⟨[1], Option.some 5, true⟩, [.bodyRun])) ∧
    ((EffectSlot.mk [1] (Option.some 5) true : EffectSlot Nat Nat).ran = true ∧
      useEffectStep (Option.some (EffectSlot.mk [1] (Option.some 5) true)) [1]
        (Option.some 6) = (⟨[1], Option.some 5, true⟩, [])) ∧
    (([1] : List Nat) ≠ [2] ∧
      useEffectStep (Option.some (EffectSlot.mk ([1] : List Nat) (Option.some (5 : Nat)) true)) [2]
        (Option.some 6) = (⟨[2], Option.some 6, true⟩, [.cleanupRun, .bodyRun])) :=
  ⟨(effect_dependency_gating ⟨[1], Option.some 5, true⟩ [1] (Option.some 5)).1,
   ⟨rfl, (effect_dependency_gating ⟨[1], Option.some 5, true⟩ [1] (Option.some 6)).2.1
      rfl rfl⟩,
   ⟨by decide, (effect_dependency_gating ⟨[1], Option.some 5, true⟩ [2] (Option.some 6)).2.2
      rfl (by decide)⟩⟩

mutual

/-- Mouse dispatch delivers, to each handler-bearing context in dispatch
order, the event retyped solely according to that context's own rectangle. -/
theorem dispatchMouseEvent_eq_map : ∀ (t : CtxTree) (ev : MouseEvent),
    dispatchMouseEvent t ev = (handlerRects t).map fun r =>
      if r.Contains ev.x ev.y then ev else { ev with type := MouseEventType.move }
  | .mk rect hasH children, ev => by
      rw [dispatchMouseEvent, handlerRects, List.map_append,
        dispatchMouseChildren_eq_map children ev]
      cases hasH <;> simp [deliveredEvent]

/-- List version of `dispatchMouseEvent_eq_map`: each child receives the
original event. -/
theorem dispatchMouseChildren_eq_map : ∀ (cs : List CtxTree) (ev : MouseEvent),
    dispatchMouseChildren cs ev = (handlerRectsList cs).map fun r =>
      if r.Contains ev.x ev.y then ev else { ev with type := MouseEventType.move }
  | [], ev => by rw [dispatchMouseChildren, handlerRectsList]; rfl
  | c :: cs, ev => by
      rw [dispatchMouseChildren, handlerRectsList, List.map_append,
        dispatchMouseEvent_eq_map c ev, dispatchMouseChildren_eq_map cs ev]

end

/-- C10: dispatching a mouse event invokes every handler-bearing context's
handler exactly once (one delivery per handler-bearing context, in dispatch
order), even when the point lies outside that context's last-rendered
rectangle; a context containing the point receives the event unchanged,
any other context receives a copy whose type is replaced by `Move`; in every
delivered event the coordinates and the button are those of the original
event. -/
theorem mouse_dispatch_broadcast (t : CtxTree) (ev : MouseEvent) :
    (dispatchMouseEvent t ev = (handlerRects t).map fun r =>
        if r.Contains ev.x ev.y then ev else { ev with type := MouseEventType.move }) ∧
    (∀ d ∈ dispatchMouseEvent t ev,
        d.x = ev.x ∧ d.y = ev.y ∧ d.button = ev.button) := by
  refine ⟨dispatchMouseEvent_eq_map t ev, ?_⟩
  intro d hd
  rw [dispatchMouseEvent_eq_map t ev] at hd
  rcases List.mem_map.mp hd with ⟨r, _, rfl⟩
  by_cases h : r.Contains ev.x ev.y <;> simp [h]

/-- C10 witness: on the concrete fixture, the in-rect root receives the
click unchanged and the out-of-rect child receives the move-retyped copy
with the same coordinates and button. -/
theorem mouse_dispatch_broadcast_witness :
    (dispatchMouseEvent ctxFixture evFixture =
      [evFixture, { evFixture with type := MouseEventType.move }]) ∧
    ({ evFixture with type := MouseEventType.move } ∈ dispatchMouseEvent ctxFixture evFixture ∧
      ({ evFixture with type := MouseEventType.move } : MouseEvent).x = evFixture.x ∧
      ({ evFixture with type := MouseEventType.move } : MouseEvent).y = evFixture.y ∧
      ({ evFixture with type := MouseEventType.move } : MouseEvent).button = evFixture.button) :=
  ⟨((mouse_dispatch_broadcast ctxFixture evFixture).1).trans (by decide),
   by
    have hm : { evFixture with type := MouseEventType.move } ∈
        dispatchMouseEvent ctxFixture evFixture := by decide
    exact ⟨hm, (mouse_dispatch_broadcast ctxFixture evFixture).2 _ hm⟩⟩

/-- The `clipScreen` proxy, over a whole write log: translate every write by
the offset and keep exactly those whose translated coordinates fall inside
the viewport rectangle, preserving order. -/
theorem clipWrites_eq_map_filter (vx vy vw vh ox oy : Int) (ws : List CellWrite) :
    clipWrites vx vy vw vh ox oy ws =
      ((ws.map fun w => CellWrite.mk (w.x + ox) (w.y + oy) w.ch).filter
        fun w => decide (vx ≤ w.x) && decide (w.x < vx + vw) &&
                 decide (vy ≤ w.y) && decide (w.y < vy + vh)) := by
  induction ws with
  | nil => rfl
  | cons w ws ih =>
      simp only [clipWrites, List.flatMap_cons] at *
      rw [List.map_cons, List.filter_cons]
      by_cases h1 : vx ≤ w.x + ox
      · by_cases h2 : w.x + ox < vx + vw
        · by_cases h3 : vy ≤ w.y + oy
          · by_cases h4 : w.y + oy < vy + vh
            · simp [clipWrite, h1, h2, h3, h4, ih]
            · simp [clipWrite, h1, h2, h3, h4, ih]
          · simp [clipWrite, h1, h2, h3, ih]
        · simp [clipWrite, h1, h2, ih]
      · simp [clipWrite, h1, ih]

/-- C5: the scroll auto-tail and clipping behavior.  Generically, the
`clipScreen` proxy translates every write by the offset and drops exactly the
writes whose translated coordinate falls outside the viewport rectangle.
Concretely, an auto-tail scroll node over content of measured height 20,
granted an 11x5 viewport at the origin, writes offset 15 back to the
persisted scroll state cell, returns the granted height 5, and draws exactly
content rows 15..19 (characters `p`..`t`) in viewport rows 0..4 — nothing
else from the content — plus the scrollbar track and thumb in the reserved
rightmost column. -/
theorem scroll_auto_tail_clip :
    (∀ (vx vy vw vh ox oy : Int) (ws : List CellWrite),
      clipWrites vx vy vw vh ox oy ws =
        ((ws.map fun w => CellWrite.mk (w.x + ox) (w.y + oy) w.ch).filter
          fun w => decide (vx ≤ w.x) && decide (w.x < vx + vw) &&
                   decide (vy ≤ w.y) && decide (w.y < vy + vh))) ∧
    Node.render tailScroll20 0 0 11 5 =
      ⟨[⟨0, 0, 'p'⟩, ⟨0, 1, 'q'⟩, ⟨0, 2, 'r'⟩, ⟨0, 3, 's'⟩, ⟨0, 4, 't'⟩,
        ⟨10, 0, '│'⟩, ⟨10, 1, '│'⟩, ⟨10, 2, '│'⟩, ⟨10, 3, '│'⟩, ⟨10, 4, '│'⟩,
        ⟨10, 3, '┃'⟩], 5, [15]⟩ :=
  ⟨clipWrites_eq_map_filter, by decide⟩

/-- A purely flexible filler implements the `flexNode` interface. -/
theorem isFlexNode_flexChild (w : Int) : (flexChild w).isFlexNode = true := rfl

/-- A purely flexible filler reports its weight through `getFlex`. -/
theorem getFlex_flexChild (w : Int) : (flexChild w).getFlex = w := rfl

/-- A child-less `VStack` render returns 0 without drawing (the
`len(v.children) == 0` early return). -/
theorem render_vstack_nil (style : Style) (gap : Int) (j : Align) (a b c d : Int) :
    Node.render (.vstack [] style gap j) a b c d = ⟨[], 0, []⟩ := rfl

/-- Rendering a purely flexible filler draws nothing and uses 0 rows (the
child-less `vstackNode.render` returns 0 immediately). -/
theorem render_flexChild (w a b c d : Int) :
    Node.render (flexChild w) a b c d = ⟨[], 0, []⟩ :=
  render_vstack_nil _ _ _ a b c d

/-- The fixed/flex first pass of `vstackNode.render` over a list of purely
flexible fillers with positive weights accumulates no fixed height and the
sum of the weights. -/
theorem vstackFixedAndFlex_flex (width : Int) :
    ∀ (ws : List Int) (acc : Int × Int), (∀ w ∈ ws, 0 < w) →
      (ws.map flexChild).foldl
        (fun acc c =>
          if c.isFlexNode ∧ c.getFlex > 0 then (acc.1, acc.2 + c.getFlex)
          else (acc.1 + measureNodeHeight c width, acc.2)) acc =
        (acc.1, acc.2 + ws.sum)
  | [], acc, _ => by simp
  | w :: ws, acc, h => by
      have hw : 0 < w := h w (by simp)
      have ih := vstackFixedAndFlex_flex width ws (acc.1, acc.2 + w)
        (fun v hv => h v (by simp [hv]))
      simp only [List.map_cons, List.foldl_cons, flexChild, Node.isFlexNode,
        Node.getFlex, hw, and_true, if_pos trivial]
      simpa [List.sum_cons, add_assoc] using ih

/-- The straight-line prefix of a `VStack` render of purely flexible fillers:
no early return, no padding, fixed height 0, remaining height equal to the
whole grant, flex unit `godiv height (sum of weights)`, start at the top. -/
theorem vstackSetup_flex (ws : List Int) (width height : Int)
    (hne : ws ≠ []) (hpos : ∀ w ∈ ws, 0 < w) (hw : 0 < width) (hh : 0 < height) :
    vstackSetup (ws.map flexChild) defaultStyle 0 .left 0 0 width height =
      Option.some ⟨0, 0, width, height, 0, godiv height ws.sum⟩ := by
  have hsum : 0 < ws.sum := List.sum_pos ws hpos hne
  have hempty : (ws.map flexChild).isEmpty = false := by
    cases ws with
    | nil => exact absurd rfl hne
    | cons a l => rfl
  have hff : (ws.map flexChild).foldl
      (fun acc c =>
        if c.isFlexNode ∧ c.getFlex > 0 then (acc.1, acc.2 + c.getFlex)
        else (acc.1 + measureNodeHeight c width, acc.2)) ((0 : Int), (0 : Int)) =
      (0, ws.sum) := by
    simpa using vstackFixedAndFlex_flex width ws (0, 0) hpos
  simp only [vstackSetup, vstackFixedAndFlex, defaultStyle, hempty, Bool.false_eq_true,
    if_false, add_zero, zero_add, sub_zero, mul_zero, zero_mul]
  rw [if_neg (by omega : ¬ (width ≤ 0 ∨ height ≤ 0))]
  rw [hff]
  simp only [zero_add, add_zero, sub_zero]
  rw [if_neg (not_lt.mpr hh.le), if_pos hsum]

/-- The `vstackNode.render` child loop over purely flexible fillers with
positive weights: as long as the allocations fit below the stack's bottom
edge — which the flex unit guarantees — every filler is granted exactly
`flexUnit * weight` rows and the cursor advances by exactly that amount. -/
theorem vstackLoop_flex (x yTop height width u : Int) (hu : 0 ≤ u) :
    ∀ (ws : List Int) (st : VLoopState), (∀ w ∈ ws, 0 < w) →
      st.currentY + u * ws.sum ≤ yTop + height →
      (ws ≠ [] → st.currentY < yTop + height) →
      vstackLoop (ws.map flexChild) x yTop height width 0 u st =
        { st with currentY := st.currentY + u * ws.sum,
                  totalUsed := st.totalUsed + u * ws.sum,
                  granted := st.granted ++ ws.map (fun w => u * w) }
  | [], st, _, _, _ => by simp [vstackLoop]
  | w :: ws, st, hpos, hbound, hcy => by
      have hw : 0 < w := hpos w (by simp)
      have hsumnn : 0 ≤ ws.sum := List.sum_nonneg fun v hv => (hpos v (by simp [hv])).le
      have husum : 0 ≤ u * ws.sum := mul_nonneg hu hsumnn
      have huw : 0 ≤ u * w := mul_nonneg hu hw.le
      have hsplit : u * (w :: ws).sum = u * w + u * ws.sum := by
        rw [List.sum_cons, mul_add]
      have hbw : st.currentY + (u * w + u * ws.sum) ≤ yTop + height := by
        rw [← hsplit]; exact hbound
      have hcy1 : ¬ st.currentY ≥ yTop + height := not_le.mpr (hcy (by simp))
      have hclamp : ¬ u * w > yTop + height - st.currentY := by omega
      have hcy2 : ws ≠ [] → st.currentY + u * w < yTop + height := by
        intro hne
        rcases ws with _ | ⟨w2, rest⟩
        · exact absurd rfl hne
        · have hw2 : 0 < w2 := hpos w2 (by simp)
          have hrest : 0 ≤ rest.sum :=
            List.sum_nonneg fun v hv => (hpos v (by simp [hv])).le
          have hsplit2 : u * (w2 :: rest).sum = u * w2 + u * rest.sum := by
            rw [List.sum_cons, mul_add]
          rcases eq_or_lt_of_le hu with h0 | h0
          · have hz : u * w = 0 := by rw [← h0]; ring
            have := hcy (by simp)
            omega
          · have h1 : 0 < u * w2 := mul_pos h0 hw2
            have h2 : 0 ≤ u * rest.sum := mul_nonneg hu hrest
            rw [hsplit2] at hbw
            omega
      have ih := vstackLoop_flex x yTop height width u hu ws
        { currentY := st.currentY + u * w, totalUsed := st.totalUsed + u * w,
          writes := st.writes, scrollSets := st.scrollSets,
          granted := st.granted ++ [u * w] }
        (fun v hv => hpos v (by simp [hv]))
        (by simpa [add_assoc] using hbw)
        (by simpa using hcy2)
      have hused : (if u * w > 0 then u * w else (0 : Int)) = u * w := by
        by_cases h : u * w > 0
        · simp [h]
        · have h0 : u * w = 0 := le_antisymm (not_lt.mp h) huw
          simp [h, h0]
      simp only [List.map_cons, vstackLoop, hcy1, if_false, isFlexNode_flexChild,
        getFlex_flexChild, eq_self_iff_true, true_and, hw, if_true, render_flexChild,
        hclamp, ite_self, add_zero, List.append_nil]
      rw [hused, ih]
      simp [List.sum_cons, mul_add, add_assoc, List.append_assoc]

/-- C3: flex distribution in a `VStack` render.  Generally, a stack of
purely flexible children with positive weights `ws`, rendered with positive
width and height and no gap, grants each child exactly
`godiv remainingHeight totalFlexWeight * ownWeight` rows, where the remaining
height is the whole grant (no fixed children) — the integer-division
remainder is dropped.  Concretely: two flex-1 children in height 10 get 5
each; weights 1/1/2 in height 8 get 2/2/4; and with a fixed one-row text
child and gap 1 in height 10, remaining is 10-(2*1+1)=7, unit 3, so the
grants are 1/3/3. -/
theorem vstack_flex_distribution :
    (∀ (ws : List Int) (width height : Int), ws ≠ [] → (∀ w ∈ ws, 0 < w) →
      0 < width → 0 < height →
      vstackGranted (ws.map flexChild) defaultStyle 0 .left 0 0 width height =
        ws.map fun w => godiv height ws.sum * w) ∧
    vstackGranted [flexChild 1, flexChild 1] defaultStyle 0 .left 0 0 10 10 =
      [5, 5] ∧
    vstackGranted [flexChild 1, flexChild 1, flexChild 2] defaultStyle 0 .left 0 0 10 8 =
      [2, 2, 4] ∧
    vstackGranted [Node.text ['a'] defaultStyle false, flexChild 1, flexChild 1]
      defaultStyle 1 .left 0 0 10 10 = [1, 3, 3] := by
  refine ⟨?_, by decide, by decide, by decide⟩
  intro ws width height hne hpos hw hh
  have hsum : 0 < ws.sum := List.sum_pos ws hpos hne
  have hu : 0 ≤ godiv height ws.sum := Int.tdiv_nonneg hh.le hsum.le
  have hmul : godiv height ws.sum * ws.sum ≤ height := by
    have h1 : godiv height ws.sum = height / ws.sum := Int.tdiv_eq_ediv hh.le hsum.le
    rw [h1]
    exact Int.ediv_mul_le height (by omega)
  unfold vstackGranted
  rw [vstackSetup_flex ws width height hne hpos hw hh]
  have hloop := vstackLoop_flex 0 0 height width (godiv height ws.sum) hu ws
    ⟨0, 0, [], [], []⟩ hpos (by simpa using hmul) (fun _ => by simpa using hh)
  simp only [hloop]
  simp

/-- C3 witness: weights 3 and 2 in height 11 — unit `11 tdiv 5 = 2`, grants
6 and 4, dropping the remainder row. -/
theorem vstack_flex_distribution_witness :
    (([3, 2] : List Int) ≠ [] ∧ (∀ w ∈ ([3, 2] : List Int), 0 < w) ∧
      (0 : Int) < 20 ∧ (0 : Int) < 11) ∧
    vstackGranted (([3, 2] : List Int).map flexChild) defaultStyle 0 .left 0 0 20 11 =
      ([3, 2] : List Int).map fun w => godiv 11 ([3, 2] : List Int).sum * w :=
  ⟨⟨by decide, by decide, by decide, by decide⟩,
   vstack_flex_distribution.1 [3, 2] 20 11 (by decide) (by decide) (by decide)
     (by decide)⟩

/-- The line counter of the wrapping measurement loop never decreases in one
step. -/
theorem measureStepWrap_lines_le (width : Int) (st : Int × Int) (r : Char) :
    st.2 ≤ (measureStepWrap width st r).2 := by
  simp only [measureStepWrap]
  split_ifs with h1 h2 h3
  · simp; omega
  · simp
  · simp
  · simp

/-- The line counter of the wrapping measurement loop never decreases along
the whole text. -/
theorem measureWrap_lines_mono (width : Int) :
    ∀ (l : List Char) (st : Int × Int),
      st.2 ≤ (l.foldl (measureStepWrap width) st).2
  | [], _ => le_refl _
  | r :: rest, st =>
      le_trans (measureStepWrap_lines_le width st r)
        (measureWrap_lines_mono width rest (measureStepWrap width st r))

/-- One-step simulation between the wrapping measurement loop and the
wrapping render loop: when the measured line counter stays within the
granted height, the render step performs the same cursor and line-counter
transitions (shifted by the origin), takes no break, and only appends
writes. -/
theorem renderStepWrap_sim (x y width height : Int) (r : Char) (mx ml : Int)
    (ws : List CellWrite)
    (h : (measureStepWrap width (mx, ml) r).2 ≤ height) :
    ∃ ws2, renderStepWrap x width height ⟨x + mx, y + (ml - 1), ml, ws, false⟩ r =
      ⟨x + (measureStepWrap width (mx, ml) r).1,
       y + ((measureStepWrap width (mx, ml) r).2 - 1),
       (measureStepWrap width (mx, ml) r).2, ws2, false⟩ := by
  by_cases hn : r = '\n'
  · subst hn
    by_cases hc : mx + runeWidth '\n' > width
    · have hc2 : x + mx + runeWidth '\n' > x + width := by omega
      have hm : measureStepWrap width (mx, ml) '\n' = (0, ml + 1 + 1) := by
        simp [measureStepWrap, hc]
      rw [hm] at h ⊢
      have h1 : ¬ ml + 1 > height := by omega
      have h2 : ¬ ml + 1 + 1 > height := by omega
      refine ⟨ws, ?_⟩
      simp only [renderStepWrap]
      simp [hc2, h1, h2]
      omega
    · have hc2 : ¬ x + mx + runeWidth '\n' > x + width := by omega
      have hm : measureStepWrap width (mx, ml) '\n' = (0, ml + 1) := by
        simp [measureStepWrap, hc]
      rw [hm] at h ⊢
      have h1 : ¬ ml + 1 > height := by omega
      refine ⟨ws, ?_⟩
      simp only [renderStepWrap]
      simp [hc2, h1]
      omega
  · by_cases hc : mx + runeWidth r > width
    · have hc2 : x + mx + runeWidth r > x + width := by omega
      have hm : measureStepWrap width (mx, ml) r = (0 + runeWidth r, ml + 1) := by
        simp [measureStepWrap, hc, hn]
      rw [hm] at h ⊢
      have h1 : ¬ ml + 1 > height := by omega
      refine ⟨ws ++ [⟨x, y + (ml - 1) + 1, r⟩], ?_⟩
      simp only [renderStepWrap]
      simp [hc2, hn, h1]
      omega
    · have hc2 : ¬ x + mx + runeWidth r > x + width := by omega
      have hm : measureStepWrap width (mx, ml) r = (mx + runeWidth r, ml) := by
        simp [measureStepWrap, hc, hn]
      rw [hm] at h ⊢
      refine ⟨ws ++ [⟨x + mx, y + (ml - 1), r⟩], ?_⟩
      simp only [renderStepWrap]
      simp [hc2, hn]
      omega

/-- Whole-text simulation: as long as the total measured line count fits in
the granted height, the wrapping render loop never takes its break and its
final line counter equals the measured one. -/
theorem renderWrap_sim (x y width height : Int) :
    ∀ (l : List Char) (mx ml : Int) (ws : List CellWrite),
      (l.foldl (measureStepWrap width) (mx, ml)).2 ≤ height →
      ∃ ws2, l.foldl (renderStepWrap x width height) ⟨x + mx, y + (ml - 1), ml, ws, false⟩ =
        ⟨x + (l.foldl (measureStepWrap width) (mx, ml)).1,
         y + ((l.foldl (measureStepWrap width) (mx, ml)).2 - 1),
         (l.foldl (measureStepWrap width) (mx, ml)).2, ws2, false⟩
  | [], mx, ml, ws, _ => ⟨ws, rfl⟩
  | r :: rest, mx, ml, ws, h => by
      have hfold : (r :: rest).foldl (measureStepWrap width) (mx, ml) =
          rest.foldl (measureStepWrap width) (measureStepWrap width (mx, ml) r) := rfl
      rw [hfold] at h ⊢
      have hstep : (measureStepWrap width (mx, ml) r).2 ≤ height :=
        le_trans (measureWrap_lines_mono width rest (measureStepWrap width (mx, ml) r)) h
      obtain ⟨ws1, hws1⟩ := renderStepWrap_sim x y width height r mx ml ws hstep
      obtain ⟨ws2, hws2⟩ := renderWrap_sim x y width height rest
        (measureStepWrap width (mx, ml) r).1 (measureStepWrap width (mx, ml) r).2 ws1 h
      refine ⟨ws2, ?_⟩
      rw [List.foldl_cons, hws1]
      exact hws2

/-- C8: for a wrapping text node and a positive width, the line count of the
measurement pass equals the height returned by `render` whenever the granted
height is at least the measured line count — both replay the same
character-by-character placement (display widths, wrap-on-overflow, explicit
newlines). -/
theorem text_measure_render_agreement (content : List Char) (style : Style)
    (x y width height : Int) (hw : 0 < width)
    (hh : measureNodeHeight (.text content style true) width ≤ height) :
    (Node.render (.text content style true) x y width height).used =
      measureNodeHeight (.text content style true) width := by
  have hmw : measureNodeHeight (.text content style true) width =
      textWrapLines content width := by
    simp [measureNodeHeight, not_le.mpr hw]
  have hone : (1 : Int) ≤ textWrapLines content width := by
    simpa [textWrapLines] using measureWrap_lines_mono width content (0, 1)
  rw [hmw] at hh ⊢
  have hhpos : ¬ height ≤ 0 := by omega
  obtain ⟨ws2, hsim⟩ := renderWrap_sim x y width height content 0 1 [] (by
    simpa [textWrapLines] using hh)
  have hinit : (⟨x, y, 1, [], false⟩ : WrapRenderState) =
      ⟨x + 0, y + (1 - 1), 1, [], false⟩ := by norm_num
  show (textRender content style true x y width height).used = textWrapLines content width
  rw [textRender]
  simp only [hhpos, if_false, Bool.not_true]
  simp only [textWrapLines]
  rw [hinit, hsim]
  simp

/-- C8 witness: the five characters `a b \n c d` at width 2 measure 2 lines,
and a render granted 5 rows returns exactly 2. -/
theorem text_measure_render_agreement_witness :
    ((0 : Int) < 2 ∧
      measureNodeHeight (.text ['a', 'b', '\n', 'c', 'd'] defaultStyle true) 2 ≤ 5) ∧
    (Node.render (.text ['a', 'b', '\n', 'c', 'd'] defaultStyle true) 0 0 2 5).used =
      measureNodeHeight (.text ['a', 'b', '\n', 'c', 'd'] defaultStyle true) 2 :=
  ⟨⟨by decide, by decide⟩,
   text_measure_render_agreement ['a', 'b', '\n', 'c', 'd'] defaultStyle 0 0 2 5
     (by decide) (by decide)⟩

end Rego
